import Mathlib

/-
Verification development for the json-render streaming patch demo.

The embedding models the TypeScript source of the repository:
  - src/apps/web/components/demo.tsx : parsePatch, applyPatch, the
    line-framing read loop of handleSubmit, stopGeneration and the
    renderer-facing child resolution of renderPreview;
  - the route handler POST (src/unnamed/part_000) : prompt sanitisation.

Text is modelled as List Char (one entry per code point). JavaScript
runtime values that can result from JSON.parse, plus the JS value
undefined, are modelled by the inductive JsVal; property access on
non-objects yields undefined, as in JavaScript. Code that can throw a
TypeError is modelled in the Except monad; pure total code is modelled
by plain functions. JS numbers are kept as their source lexeme: no
claim depends on IEEE-754 numeric values, only on which JsVal
constructor appears.
-/

/-- JavaScript runtime value as observable by the demo code: the result
of a JSON.parse plus the distinguished value undefined produced by a
failed property access. Numbers keep their JSON lexeme. -/
inductive JsVal where
  | null
  | undef
  | bool (b : Bool)
  | num (lexeme : String)
  | str (s : String)
  | arr (elems : List JsVal)
  | obj (fields : List (String × JsVal))

/-- Association-list lookup, first match; models reading a property of
a plain JS object whose keys were produced without duplicates. -/
def getAssoc {α : Type} [DecidableEq α] {β : Type} : List (α × β) → α → Option β
  | [], _ => none
  | (k, v) :: rest, a => if k = a then some v else getAssoc rest a

/-- Association-list update; models the JS assignment obj[k] = v: an
existing key keeps its position, a new key is appended (JS property
insertion order). -/
def setAssoc {α : Type} [DecidableEq α] {β : Type} : List (α × β) → α → β → List (α × β)
  | [], a, b => [(a, b)]
  | (k, v) :: rest, a, b => if k = a then (a, b) :: rest else (k, v) :: setAssoc rest a b

/-- Last value stored under a key, default undefined; JSON.parse builds
objects by successive property definition, so a duplicated key keeps
its last value. -/
def getFieldLast (fs : List (String × JsVal)) (k : String) : JsVal :=
  fs.foldl (fun acc p => if p.1 = k then p.2 else acc) JsVal.undef

/-- JS property read v[field]: fields of an object, undefined on every
other value (the demo never reads built-in properties). -/
def jsGet (v : JsVal) (field : String) : JsVal :=
  match v with
  | JsVal.obj fs => getFieldLast fs field
  | _ => JsVal.undef

/-- JS strict equality of a runtime value against a string literal,
as in the source test patch.path === "/root". -/
def jsStrEq (v : JsVal) (s : String) : Bool :=
  match v with
  | JsVal.str t => t == s
  | _ => false

/-- Zero test on a JSON number lexeme: the mantissa (everything before
an exponent marker) consists of sign, dot and zero digits only. -/
def numLexIsZero (s : String) : Bool :=
  (s.toList.takeWhile (fun c => !(c = 'e' || c = 'E'))).all
    (fun c => c = '0' || c = '.' || c = '-')

/-- JS truthiness of a modelled runtime value. -/
def jsTruthy : JsVal → Bool
  | JsVal.null => false
  | JsVal.undef => false
  | JsVal.bool b => b
  | JsVal.num s => !(numLexIsZero s)
  | JsVal.str s => !(s == "")
  | JsVal.arr _ => true
  | JsVal.obj _ => true

/-- Opening curly brace character (written by code so that no brace
appears inside a string literal). -/
def braceL : Char := Char.ofNat 123

/-- Closing curly brace character. -/
def braceR : Char := Char.ofNat 125

/-- JSON whitespace accepted between tokens by JSON.parse. -/
def skipWs (cs : List Char) : List Char :=
  cs.dropWhile (fun c => c = ' ' || c = '\t' || c = '\n' || c = '\r')

/-- Hex digit test for a JSON \u escape. -/
def isHexDigit (c : Char) : Bool :=
  (('0' ≤ c) && (c ≤ '9')) || (('a' ≤ c) && (c ≤ 'f')) || (('A' ≤ c) && (c ≤ 'F'))

/-- Value of a hex digit. -/
def hexVal (c : Char) : Nat :=
  if ('0' ≤ c) && (c ≤ '9') then c.toNat - '0'.toNat
  else if ('a' ≤ c) && (c ≤ 'f') then c.toNat - 'a'.toNat + 10
  else c.toNat - 'A'.toNat + 10

/-- Prepend a character to the text component of a string-body parse. -/
def strCons (c : Char) (r : Option (List Char × List Char)) : Option (List Char × List Char) :=
  r.map (fun p => (c :: p.1, p.2))

/-- Body of a JSON string after its opening quote: strict JSON escape
set, unescaped control characters rejected. Lone surrogates from \u
escapes fall outside the model of Char and are mapped by Char.ofNat to
its fallback; no claim exercises them. -/
def parseStrBody : List Char → Option (List Char × List Char)
  | [] => none
  | c :: rest =>
    if c = '"' then some ([], rest)
    else if c = '\\' then
      match rest with
      | [] => none
      | e :: r2 =>
        if e = '"' then strCons '"' (parseStrBody r2)
        else if e = '\\' then strCons '\\' (parseStrBody r2)
        else if e = '/' then strCons '/' (parseStrBody r2)
        else if e = 'b' then strCons '\x08' (parseStrBody r2)
        else if e = 'f' then strCons '\x0c' (parseStrBody r2)
        else if e = 'n' then strCons '\n' (parseStrBody r2)
        else if e = 'r' then strCons '\r' (parseStrBody r2)
        else if e = 't' then strCons '\t' (parseStrBody r2)
        else if e = 'u' then
          match r2 with
          | h1 :: h2 :: h3 :: h4 :: r3 =>
            if isHexDigit h1 && isHexDigit h2 && isHexDigit h3 && isHexDigit h4 then
              strCons (Char.ofNat ((((hexVal h1 * 16 + hexVal h2) * 16 + hexVal h3) * 16) + hexVal h4))
                (parseStrBody r3)
            else none
          | _ => none
        else none
    else if c.toNat < 32 then none
    else strCons c (parseStrBody rest)

/-- Leading decimal digits. -/
def digitsOf (cs : List Char) : List Char := cs.takeWhile Char.isDigit

/-- Rest after the leading decimal digits. -/
def afterDigits (cs : List Char) : List Char := cs.dropWhile Char.isDigit

/-- Integer part of a JSON number: a single 0, or a nonzero digit
followed by digits (strict grammar, no leading zeros). -/
def parseIntPart : List Char → Option (List Char × List Char)
  | [] => none
  | c :: rest =>
    if c = '0' then some (['0'], rest)
    else if c.isDigit then some (c :: digitsOf rest, afterDigits rest)
    else none

/-- Optional fraction part of a JSON number. -/
def parseFracPart : List Char → Option (List Char × List Char)
  | '.' :: rest =>
    if (digitsOf rest).isEmpty then none
    else some ('.' :: digitsOf rest, afterDigits rest)
  | cs => some ([], cs)

/-- Optional exponent part of a JSON number. -/
def parseExpPart (cs : List Char) : Option (List Char × List Char) :=
  match cs with
  | [] => some ([], cs)
  | e :: rest =>
    if e = 'e' || e = 'E' then
      match rest with
      | [] => none
      | s :: r2 =>
        if s = '+' || s = '-' then
          if (digitsOf r2).isEmpty then none
          else some (e :: s :: digitsOf r2, afterDigits r2)
        else if s.isDigit then some (e :: digitsOf rest, afterDigits rest)
        else none
    else some ([], cs)

/-- JSON number: optional minus, integer part, optional fraction and
exponent; returns the lexeme. -/
def parseNumber (cs : List Char) : Option (String × List Char) :=
  let sp : List Char × List Char :=
    match cs with
    | '-' :: r => (['-'], r)
    | _ => ([], cs)
  match parseIntPart sp.2 with
  | none => none
  | some (ip, r1) =>
    match parseFracPart r1 with
    | none => none
    | some (fp, r2) =>
      match parseExpPart r2 with
      | none => none
      | some (ep, r3) => some (String.mk (sp.1 ++ ip ++ fp ++ ep), r3)

mutual

/-- One JSON value, fuel-bounded recursive descent for strict
JSON.parse. -/
def parseVal : Nat → List Char → Option (JsVal × List Char)
  | 0, _ => none
  | Nat.succ f, cs =>
    match skipWs cs with
    | 'n' :: 'u' :: 'l' :: 'l' :: r => some (JsVal.null, r)
    | 't' :: 'r' :: 'u' :: 'e' :: r => some (JsVal.bool true, r)
    | 'f' :: 'a' :: 'l' :: 's' :: 'e' :: r => some (JsVal.bool false, r)
    | '"' :: r =>
      match parseStrBody r with
      | some (l, rest) => some (JsVal.str (String.mk l), rest)
      | none => none
    | '[' :: r =>
      match skipWs r with
      | ']' :: rest => some (JsVal.arr [], rest)
      | r2 =>
        match parseArrItems f r2 with
        | some (vs, rest) => some (JsVal.arr vs, rest)
        | none => none
    | cs2 =>
      match cs2 with
      | [] => none
      | c :: r =>
        if c = braceL then parseObjBody f r
        else
          match parseNumber cs2 with
          | some (s, rest) => some (JsVal.num s, rest)
          | none => none

/-- Object after the opening brace: empty object or member list. -/
def parseObjBody : Nat → List Char → Option (JsVal × List Char)
  | 0, _ => none
  | Nat.succ f, r =>
    match skipWs r with
    | [] => none
    | c2 :: rest2 =>
      if c2 = braceR then some (JsVal.obj [], rest2)
      else
        match parseObjItems f (c2 :: rest2) with
        | some (fs, rest) => some (JsVal.obj fs, rest)
        | none => none

/-- One or more array elements up to the closing bracket. -/
def parseArrItems : Nat → List Char → Option (List JsVal × List Char)
  | 0, _ => none
  | Nat.succ f, cs =>
    match parseVal f cs with
    | none => none
    | some (v, r) =>
      match skipWs r with
      | ',' :: r2 =>
        match parseArrItems f r2 with
        | some (vs, rest) => some (v :: vs, rest)
        | none => none
      | ']' :: r2 => some ([v], r2)
      | _ => none

/-- One or more object members up to the closing brace; duplicate keys
are kept in order (lookup takes the last). -/
def parseObjItems : Nat → List Char → Option (List (String × JsVal) × List Char)
  | 0, _ => none
  | Nat.succ f, cs =>
    match skipWs cs with
    | '"' :: r =>
      match parseStrBody r with
      | none => none
      | some (k, r1) =>
        match skipWs r1 with
        | ':' :: r2 =>
          match parseVal f r2 with
          | none => none
          | some (v, r3) =>
            match skipWs r3 with
            | ',' :: r4 =>
              match parseObjItems f r4 with
              | some (fs, rest) => some ((String.mk k, v) :: fs, rest)
              | none => none
            | c :: r4 => if c = braceR then some ([(String.mk k, v)], r4) else none
            | [] => none
        | _ => none
    | _ => none

end

/-- Strict JSON.parse on a text: one value, optional surrounding
whitespace, nothing else. The fuel bound exceeds any possible nesting
of the input. -/
def jsonParse (cs : List Char) : Option JsVal :=
  match parseVal (2 * cs.length + 8) cs with
  | some (v, rest) => if (skipWs rest).isEmpty then some v else none
  | none => none

/-- Whitespace removed by the JS String.prototype.trim (the common
members of the WhiteSpace and LineTerminator productions). -/
def isJsSpace (c : Char) : Bool :=
  c = ' ' || c = '\t' || c = '\n' || c = '\r' || c = '\x0b' || c = '\x0c' ||
  c = '\u00A0' || c = '\u2028' || c = '\u2029' || c = '\uFEFF'

/-- JS line.trim(): strip whitespace from both ends. -/
def trimChars (cs : List Char) : List Char :=
  ((cs.dropWhile isJsSpace).reverse.dropWhile isJsSpace).reverse

/-- Comment-marker test of the source: trimmed.startsWith("//"). -/
def isCommentStart : List Char → Bool
  | '/' :: '/' :: _ => true
  | _ => false

/-- parsePatch of demo.tsx. The source returns null both for the
classified not-a-patch cases and, unavoidably, for a line whose JSON
parse succeeds with the value null; JsVal.null models that shared
return value. The try/catch of the source is the none branch of
jsonParse: the function itself never throws. -/
def parsePatch (line : List Char) : JsVal :=
  let trimmed := trimChars line
  if trimmed.isEmpty || isCommentStart trimmed then JsVal.null
  else
    match jsonParse trimmed with
    | some v => v
    | none => JsVal.null

/-- Tree snapshot of demo.tsx (interface UITree). The source types
root as string and the element entries as UIElement, but the casts
(patch.value as string, patch.value as UIElement) are erased at
runtime, so both fields hold arbitrary runtime values. -/
structure UITree where
  root : JsVal
  elements : List (String × JsVal)

/-- Initial tree of handleSubmit: root empty string, no elements. -/
def emptyTree : UITree :=
  { root := JsVal.str "", elements := [] }

/-- JS s.startsWith(pre). -/
def jsStartsWith (s pre : String) : Bool :=
  pre.toList.isPrefixOf s.toList

/-- Key extraction of applyPatch:
path.slice("/elements/".length).split("/")[0], that is the text after
the first ten characters up to the next slash. -/
def extractKey (p : String) : String :=
  String.mk ((p.toList.drop 10).takeWhile (fun c => !(c = '/')))

/-- applyPatch of demo.tsx over runtime values. The top-level spread
and the elements spread are value copies here (the reference-level
copy-on-write behaviour is modelled separately by applyPatchRef).
Reading patch.path twice is harmless; calling startsWith on a
non-string patch.path throws a TypeError, modelled by the error
branch. -/
def applyPatch (tree : UITree) (patch : JsVal) : Except String UITree :=
  let newTree : UITree := { root := tree.root, elements := tree.elements }
  if jsStrEq (jsGet patch "path") "/root" then
    Except.ok { newTree with root := jsGet patch "value" }
  else
    match jsGet patch "path" with
    | JsVal.str p =>
      if jsStartsWith p "/elements/" then
        if (!(extractKey p == "")) &&
            (jsStrEq (jsGet patch "op") "set" || jsStrEq (jsGet patch "op") "add") then
          Except.ok { newTree with
            elements := setAssoc newTree.elements (extractKey p) (jsGet patch "value") }
        else Except.ok newTree
      else Except.ok newTree
    | _ => Except.error "TypeError"

mutual

/-- JS ToString of a runtime value, used for property keys and for
String(x). Number lexemes stand in for the canonical JS number
printing; objects print as in JS. -/
def jsToString : JsVal → String
  | JsVal.null => "null"
  | JsVal.undef => "undefined"
  | JsVal.bool true => "true"
  | JsVal.bool false => "false"
  | JsVal.num s => s
  | JsVal.str s => s
  | JsVal.arr xs => String.intercalate "," (jsToStringArrElems xs)
  | JsVal.obj _ => "[object Object]"

/-- Array.prototype.join "," element conversion: null and undefined
become the empty string. -/
def jsToStringArrElems : List JsVal → List String
  | [] => []
  | v :: vs =>
    (match v with
     | JsVal.null => ""
     | JsVal.undef => ""
     | w => jsToString w) :: jsToStringArrElems vs

end

/-- Renderer-facing child resolution of renderPreview:
(root.children ?? []).map((key) => currentTree.elements[key]).filter(Boolean).
A missing or null children field defaults to the empty list; calling
map on any other non-array value throws. Lookup of an absent key gives
undefined, which filter(Boolean) drops. -/
def resolveChildren (t : UITree) (rootEl : JsVal) : Except String (List JsVal) :=
  match jsGet rootEl "children" with
  | JsVal.undef => Except.ok []
  | JsVal.null => Except.ok []
  | JsVal.arr xs =>
    Except.ok (((xs.map (fun k => (getAssoc t.elements (jsToString k)).getD JsVal.undef)).filter
      (fun v => jsTruthy v)))
  | _ => Except.error "TypeError"

/-- JS buffer.split("\n") on text: the newline-separated pieces, with
an empty piece between adjacent newlines and at the ends; never the
empty list. -/
def splitNl : List Char → List (List Char)
  | [] => [[]]
  | c :: cs =>
    if c = '\n' then [] :: splitNl cs
    else
      match splitNl cs with
      | [] => [[c]]
      | l :: ls => (c :: l) :: ls

/-- One iteration of the read loop of handleSubmit:
buffer += chunk; const lines = buffer.split("\n"); buffer = lines.pop() ?? "".
Returns the emitted complete lines and the new pending buffer. -/
def frameStep (buffer chunk : List Char) : List (List Char) × List Char :=
  let parts := splitNl (buffer ++ chunk)
  (parts.dropLast, parts.getLastD [])

/-- Specification form of the framing of one text: the complete lines
and the trailing unterminated residual, computed directly from the
whole text. -/
def frameText : List Char → List (List Char) × List Char
  | [] => ([], [])
  | c :: cs =>
    match frameText cs with
    | (ls, buf) =>
      if c = '\n' then ([] :: ls, buf)
      else
        match ls with
        | [] => ([], c :: buf)
        | l :: ls2 => ((c :: l) :: ls2, buf)

/-- Accumulating step of the framing loop over the chunk sequence:
state is (lines emitted so far, pending buffer). -/
def frameStepF (acc : List (List Char) × List Char) (chunk : List Char) :
    List (List Char) × List Char :=
  let r := frameStep acc.2 chunk
  (acc.1 ++ r.1, r.2)

/-- All complete lines emitted by the read loop over a chunk sequence,
together with the final pending buffer. -/
def frameChunks (cs : List (List Char)) : List (List Char) × List Char :=
  cs.foldl frameStepF ([], [])

/-- Lines emitted over the whole stream including the end-of-stream
handling of handleSubmit: the pending buffer is emitted as a final
line exactly when it is non-empty after trimming. -/
def frameAll (cs : List (List Char)) : List (List Char) :=
  let r := frameChunks cs
  if (trimChars r.2).isEmpty then r.1 else r.1 ++ [r.2]

/-- Monoid composition of two framed texts: the residual of the first
text continues into the first line (or the residual) of the second. -/
def glue : (List (List Char) × List Char) → (List (List Char) × List Char) →
    List (List Char) × List Char
  | (ls, buf), ([], buf2) => (ls, buf ++ buf2)
  | (ls, buf), (l :: ls2, buf2) => (ls ++ (buf ++ l) :: ls2, buf2)

/-- State of one line of stream processing inside handleSubmit: the
running tree, the accumulated raw-line log (each entry line.trim()),
and the pending thrown error if one escaped. -/
structure ProcState where
  tree : UITree
  log : List (List Char)
  err : Option String

/-- Processing of one complete line by the read loop body:
const patch = parsePatch(line); if (patch) apply, publish tree, append
line.trim() to the log. A thrown TypeError is sticky: once err is set
the loop body is never reached again (the source exits the loop by
exception). -/
def processOne (st : ProcState) (line : List Char) : ProcState :=
  match st.err with
  | some _ => st
  | none =>
    let patch := parsePatch line
    if jsTruthy patch then
      match applyPatch st.tree patch with
      | Except.ok t => { tree := t, log := st.log ++ [trimChars line], err := none }
      | Except.error e => { st with err := some e }
    else st

/-- Processing of a batch of complete lines in order. -/
def processLines (st : ProcState) (lines : List (List Char)) : ProcState :=
  lines.foldl processOne st

/-- One read-loop iteration of handleSubmit: frame the chunk against
the pending buffer, process the emitted complete lines. State is
(pending buffer, processing state). -/
def sessStep (acc : List Char × ProcState) (chunk : List Char) : List Char × ProcState :=
  let fr := frameStep acc.1 chunk
  (fr.2, processLines acc.2 fr.1)

/-- Observable outcome of one handleSubmit session. errorSurfaced is
the console.error of the catch block, which fires for every caught
error except an AbortError. -/
structure SessResult where
  tree : UITree
  streamLines : List (List Char)
  errorSurfaced : Bool
  isLoading : Bool

/-- Surfacing test of the catch block of handleSubmit:
(err as Error).name !== "AbortError". -/
def errSurfaced (name : String) : Bool := name != "AbortError"

/-- One whole session of handleSubmit after a successful response,
driven by the text chunks of the response body. abortAfter = some n
models a cancellation firing at the read of chunk n (the next
suspension point): the reader throws an AbortError there, the chunks
from position n on are never seen and the end-of-stream flush does not
run. abortAfter = none is a completed stream with the final
buffer-flush of the source. The finally block clears isLoading in
every outcome. -/
def runSession (chunks : List (List Char)) (abortAfter : Option Nat) : SessResult :=
  let consumed := match abortAfter with
    | some n => chunks.take n
    | none => chunks
  let r := consumed.foldl sessStep ([], ⟨emptyTree, [], none⟩)
  match abortAfter with
  | some _ =>
    { tree := r.2.tree, streamLines := r.2.log,
      errorSurfaced := errSurfaced (r.2.err.getD "AbortError"), isLoading := false }
  | none =>
    match r.2.err with
    | some e =>
      { tree := r.2.tree, streamLines := r.2.log,
        errorSurfaced := errSurfaced e, isLoading := false }
    | none =>
      if (trimChars r.1).isEmpty then
        { tree := r.2.tree, streamLines := r.2.log, errorSurfaced := false, isLoading := false }
      else
        let fin := processOne r.2 r.1
        { tree := fin.tree, streamLines := fin.log,
          errorSurfaced := (fin.err.map errSurfaced).getD false, isLoading := false }

/-- Client-side state of the Demo component that the start and stop
handlers touch, with controller identities made explicit: nextCtrl is
a fresh AbortController identity, currentCtrl the identity held in
abortRef.current, aborted the identities whose abort() has fired. -/
structure ClientState where
  isLoading : Bool
  nextCtrl : Nat
  currentCtrl : Option Nat
  aborted : List Nat
  streamLines : List (List Char)
  tree : Option UITree
  userPrompt : String

/-- Abort of the controller held in abortRef.current, if any
(abortRef.current?.abort()). -/
def abortCurrent (s : ClientState) : ClientState :=
  match s.currentCtrl with
  | some c => { s with aborted := s.aborted ++ [c] }
  | none => s

/-- Synchronous prefix of handleSubmit, up to its first await: the
guard returns immediately when the trimmed prompt is empty or a
session is already loading; otherwise the previous controller is
aborted, a fresh controller installed, and the published lines and
tree reset. The Bool reports whether a new session started. -/
def handleSubmitStart (s : ClientState) : ClientState × Bool :=
  if (trimChars s.userPrompt.toList).isEmpty || s.isLoading then (s, false)
  else
    let s1 := abortCurrent s
    (({ s1 with
        currentCtrl := some s.nextCtrl,
        nextCtrl := s.nextCtrl + 1,
        isLoading := true,
        streamLines := [],
        tree := some emptyTree }), true)

/-- stopGeneration of demo.tsx restricted to interactive mode: abort
the current controller and clear isLoading (the simulation-mode state
changes concern the playback engine only). -/
def stopGeneration (s : ClientState) : ClientState :=
  { (abortCurrent s) with isLoading := false }

/-- Heap of elements-mapping objects for the reference-level model:
addresses to entry lists, each entry holding the key and the address
of the element object stored under it. -/
abbrev EHeap := List (Nat × List (String × Nat))

/-- Read of an elements-mapping object at an address. -/
def lookupH (h : EHeap) (a : Nat) : List (String × Nat) :=
  (getAssoc h a).getD []

/-- Allocation or overwrite of an elements-mapping object. -/
def updH (h : EHeap) (a : Nat) (m : List (String × Nat)) : EHeap :=
  setAssoc h a m

/-- Tree record with object identities for the reference-level model:
addr is the identity of the snapshot record itself, elemsRef the
identity of its elements mapping object. -/
structure RefTree where
  addr : Nat
  root : JsVal
  elemsRef : Nat

/-- applyPatch of demo.tsx instrumented with object identities, to
state the copy-on-write behaviour. The spread tree copy allocates the
record at fa; the elements spread allocates a wrapper at fe holding
the same entry references; the mutation newTree.elements[key] = value
writes the reference vref of the patch value into the wrapper at fe.
The branch structure is exactly that of applyPatch. -/
def applyPatchRef (h : EHeap) (t : RefTree) (patch : JsVal) (vref fa fe : Nat) :
    Except String (EHeap × RefTree) :=
  let h1 := updH h fe (lookupH h t.elemsRef)
  let nt : RefTree := { addr := fa, root := t.root, elemsRef := fe }
  if jsStrEq (jsGet patch "path") "/root" then
    Except.ok (h1, { nt with root := jsGet patch "value" })
  else
    match jsGet patch "path" with
    | JsVal.str p =>
      if jsStartsWith p "/elements/" then
        if (!(extractKey p == "")) &&
            (jsStrEq (jsGet patch "op") "set" || jsStrEq (jsGet patch "op") "add") then
          Except.ok (updH h1 fe (setAssoc (lookupH h1 fe) (extractKey p) vref), nt)
        else Except.ok (h1, nt)
      else Except.ok (h1, nt)
    | _ => Except.error "TypeError"

/-- JS s.slice(0, n), counting in code points (the cap argument 140 is
far below any surrogate-pair discrepancy relevant to the claims). -/
def jsSlice (s : String) (n : Nat) : String :=
  String.mk (s.toList.take n)

/-- JS x || y. -/
def jsOr (v w : JsVal) : JsVal :=
  if jsTruthy v then v else w

/-- Prompt cap of the POST handler. -/
def MAX_PROMPT_LENGTH : Nat := 140

/-- Prompt sanitisation of the POST route handler:
const (destructured) prompt of the parsed body, then
String(prompt || "").slice(0, MAX_PROMPT_LENGTH). Destructuring a
null (or undefined) body throws before any prompt reaches the
generator. -/
def sanitizePrompt (body : JsVal) : Except String String :=
  match body with
  | JsVal.null => Except.error "TypeError"
  | JsVal.undef => Except.error "TypeError"
  | b => Except.ok (jsSlice (jsToString (jsOr (jsGet b "prompt") (JsVal.str ""))) MAX_PROMPT_LENGTH)

/-- Lookup after update at the same key. -/
theorem getAssoc_setAssoc_self {α : Type} [DecidableEq α] {β : Type}
    (l : List (α × β)) (a : α) (b : β) :
    getAssoc (setAssoc l a b) a = some b := by
  induction l with
  | nil => simp [getAssoc, setAssoc]
  | cons p rest ih =>
    by_cases h : p.1 = a
    · simp [setAssoc, getAssoc, h]
    · simp only [setAssoc]
      rw [if_neg h]
      simp [getAssoc, h, ih]

/-- Lookup after update at a different key. -/
theorem getAssoc_setAssoc_ne {α : Type} [DecidableEq α] {β : Type}
    (l : List (α × β)) (a a2 : α) (b : β) (h : a2 ≠ a) :
    getAssoc (setAssoc l a b) a2 = getAssoc l a2 := by
  induction l with
  | nil => simp [getAssoc, setAssoc, Ne.symm h]
  | cons p rest ih =>
    by_cases hp : p.1 = a
    · simp only [setAssoc]
      rw [if_pos hp]
      simp only [getAssoc]
      rw [if_neg (Ne.symm h), hp, if_neg (Ne.symm h)]
    · simp only [setAssoc]
      rw [if_neg hp]
      by_cases hq : p.1 = a2
      · simp [getAssoc, hq]
      · simp [getAssoc, hq, ih]

/-- Glue with the empty framed text on the left is the identity. -/
theorem glue_nil_left (b : List (List Char) × List Char) : glue ([], []) b = b := by
  rcases b with ⟨ls, buf⟩
  cases ls <;> simp [glue]

/-- Framing is a monoid homomorphism from text concatenation to glue. -/
theorem frameText_append (x y : List Char) :
    frameText (x ++ y) = glue (frameText x) (frameText y) := by
  induction x with
  | nil =>
    simp only [List.nil_append, frameText]
    rw [glue_nil_left]
  | cons c cs ih =>
    rcases hG : frameText cs with ⟨gs, gb⟩
    rcases hH : frameText y with ⟨hs, hb⟩
    rw [hG, hH] at ih
    rw [List.cons_append]
    show frameText (c :: (cs ++ y)) = glue (frameText (c :: cs)) (hs, hb)
    simp only [frameText, hG, ih]
    by_cases hc : c = '\n'
    · subst hc
      simp only [if_pos rfl]
      cases hs <;> simp [glue]
    · rw [if_neg hc, if_neg hc]
      cases gs with
      | nil =>
        cases hs <;> simp [glue]
      | cons g gs2 =>
        cases hs <;> simp [glue]

/-- A text without newline frames to no complete line and itself as
residual. -/
theorem frameText_no_nl (cs : List Char) (h : '\n' ∉ cs) : frameText cs = ([], cs) := by
  induction cs with
  | nil => rfl
  | cons c cs ih =>
    have hc : c ≠ '\n' := fun e => h (by rw [e]; exact List.mem_cons_self _ _)
    have hcs : '\n' ∉ cs := fun e => h (List.mem_cons_of_mem _ e)
    simp only [frameText, ih hcs]
    rw [if_neg hc]

/-- The residual of a framed text contains no newline. -/
theorem frameText_residual_no_nl (cs : List Char) : '\n' ∉ (frameText cs).2 := by
  induction cs with
  | nil => simp [frameText]
  | cons c cs ih =>
    rcases hG : frameText cs with ⟨gs, gb⟩
    rw [hG] at ih
    simp only [frameText, hG]
    by_cases hc : c = '\n'
    · subst hc; simpa using ih
    · rw [if_neg hc]
      cases gs with
      | nil =>
        simp only []
        intro hmem
        rcases List.mem_cons.mp hmem with h1 | h2
        · exact hc h1.symm
        · exact ih h2
      | cons g gs2 => simpa using ih

/-- The JS split is the framed lines followed by the residual. -/
theorem splitNl_eq (cs : List Char) :
    splitNl cs = (frameText cs).1 ++ [(frameText cs).2] := by
  induction cs with
  | nil => rfl
  | cons c cs ih =>
    rcases hG : frameText cs with ⟨gs, gb⟩
    rw [hG] at ih
    simp only [splitNl, frameText, hG, ih]
    by_cases hc : c = '\n'
    · subst hc; simp
    · rw [if_neg hc, if_neg hc]
      cases gs <;> simp

/-- The last element of a list ending in a singleton. -/
theorem getLastD_append_single (l : List (List Char)) (a d : List Char) :
    (l ++ [a]).getLastD d = a := by
  induction l with
  | nil => rfl
  | cons x xs ih =>
    rw [List.cons_append]
    cases hxs : xs ++ [a] with
    | nil => exact absurd hxs (by simp)
    | cons y ys =>
      rw [hxs] at ih
      simp only [List.getLastD_cons] at ih ⊢
      exact ih

/-- One framing step of the read loop equals framing the buffer
followed by the chunk. -/
theorem frameStep_eq (b c : List Char) : frameStep b c = frameText (b ++ c) := by
  unfold frameStep
  rw [splitNl_eq]
  rcases frameText (b ++ c) with ⟨ls, buf⟩
  simp [List.dropLast_concat, getLastD_append_single]

/-- Glue against a left pair decomposes into the emitted lines of the
left text followed by gluing only its residual. -/
theorem glue_decomp (L1 : List (List Char)) (B1 : List Char)
    (X : List (List Char) × List Char) :
    glue (L1, B1) X = (L1 ++ (glue ([], B1) X).1, (glue ([], B1) X).2) := by
  rcases X with ⟨xs, xb⟩
  cases xs <;> simp [glue]

/-- The framing fold ignores the already emitted lines: they are a
pure accumulator. -/
theorem frame_foldl_shift (cs : List (List Char)) :
    ∀ ls buf, cs.foldl frameStepF (ls, buf) =
      (ls ++ (cs.foldl frameStepF ([], buf)).1, (cs.foldl frameStepF ([], buf)).2) := by
  induction cs with
  | nil => intro ls buf; simp
  | cons c cs ih =>
    intro ls buf
    rw [List.foldl_cons, List.foldl_cons]
    show cs.foldl frameStepF (ls ++ (frameStep buf c).1, (frameStep buf c).2) = _
    rw [ih (ls ++ (frameStep buf c).1) (frameStep buf c).2]
    have h2 : frameStepF ([], buf) c = ((frameStep buf c).1, (frameStep buf c).2) := by
      simp [frameStepF]
    rw [h2]
    rw [ih (frameStep buf c).1 (frameStep buf c).2]
    simp [List.append_assoc]

/-- Closed form of the framing fold: starting from a newline-free
pending buffer, folding the chunks equals framing the buffer followed
by the joined chunks. -/
theorem frame_foldl (cs : List (List Char)) :
    ∀ buf, '\n' ∉ buf →
      cs.foldl frameStepF ([], buf) = frameText (buf ++ cs.flatten) := by
  induction cs with
  | nil =>
    intro buf h
    simp [frameText_no_nl buf h]
  | cons c cs ih =>
    intro buf h
    rw [List.foldl_cons]
    have h1 : frameStepF ([], buf) c = ((frameStep buf c).1, (frameStep buf c).2) := by
      simp [frameStepF]
    rw [h1]
    rw [frame_foldl_shift cs (frameStep buf c).1 (frameStep buf c).2]
    have hres : '\n' ∉ (frameStep buf c).2 := by
      rw [frameStep_eq]
      exact frameText_residual_no_nl (buf ++ c)
    rw [ih (frameStep buf c).2 hres]
    have hj : buf ++ (c :: cs).flatten = (buf ++ c) ++ cs.flatten := by
      simp [List.flatten_cons, List.append_assoc]
    rw [hj, frameText_append (buf ++ c) cs.flatten]
    rw [frameStep_eq]
    have h3 : frameText ((frameText (buf ++ c)).2 ++ cs.flatten) =
        glue ([], (frameText (buf ++ c)).2) (frameText cs.flatten) := by
      rw [frameText_append]
      rw [frameText_no_nl _ (frameText_residual_no_nl (buf ++ c))]
    rw [h3]
    rcases hF : frameText (buf ++ c) with ⟨fs, fb⟩
    rw [glue_decomp fs fb (frameText cs.flatten)]

/-- The chunked framing loop computes exactly the framing of the
joined text. -/
theorem frameChunks_eq (cs : List (List Char)) :
    frameChunks cs = frameText cs.flatten := by
  unfold frameChunks
  have := frame_foldl cs [] (by simp)
  simpa using this

/-- Claim C1: line framing is chunk-boundary independent. For every
two chunk sequences carrying the same total text, the framing loop of
handleSubmit emits the identical ordered sequence of complete lines
and ends with the identical pending buffer; the complete lines are
exactly those of the total text, and at end-of-stream the residual
unterminated buffer is emitted as a final line exactly when it is
non-empty after trimming. -/
theorem lineFramer_chunk_boundary_independent (cs ds : List (List Char))
    (h : cs.flatten = ds.flatten) :
    frameChunks cs = frameChunks ds ∧
    frameAll cs = frameAll ds ∧
    (frameChunks cs).1 = (frameText cs.flatten).1 ∧
    frameAll cs = (frameText cs.flatten).1 ++
      (if (trimChars (frameText cs.flatten).2).isEmpty then []
       else [(frameText cs.flatten).2]) := by
  have hc := frameChunks_eq cs
  have hd := frameChunks_eq ds
  have h1 : frameChunks cs = frameChunks ds := by rw [hc, hd, h]
  refine ⟨h1, ?_, ?_, ?_⟩
  · unfold frameAll
    rw [h1]
  · rw [hc]
  · unfold frameAll
    rw [hc]
    by_cases ht : (trimChars (frameText cs.flatten).2).isEmpty
    · simp [ht]
    · simp [ht]

/-- Witness for C1 at concrete chunkings of the text "ab\ncd". -/
theorem lineFramer_chunk_boundary_independent_instance :
    frameChunks [['a'], ['b', '\n', 'c', 'd']] = frameChunks [['a', 'b', '\n'], ['c', 'd']] ∧
    frameAll [['a'], ['b', '\n', 'c', 'd']] = frameAll [['a', 'b', '\n'], ['c', 'd']] ∧
    (frameChunks [['a'], ['b', '\n', 'c', 'd']]).1 =
      (frameText [['a'], ['b', '\n', 'c', 'd']].flatten).1 ∧
    frameAll [['a'], ['b', '\n', 'c', 'd']] = (frameText [['a'], ['b', '\n', 'c', 'd']].flatten).1 ++
      (if (trimChars (frameText [['a'], ['b', '\n', 'c', 'd']].flatten).2).isEmpty then []
       else [(frameText [['a'], ['b', '\n', 'c', 'd']].flatten).2]) :=
  lineFramer_chunk_boundary_independent [['a'], ['b', '\n', 'c', 'd']] [['a', 'b', '\n'], ['c', 'd']]
    (by decide)

/-- A runtime value strictly equals a string literal exactly when it
is that string. -/
theorem jsStrEq_true_iff (v : JsVal) (s : String) : jsStrEq v s = true ↔ v = JsVal.str s := by
  cases v <;> simp [jsStrEq]

/-- Claim C2 (code behaviour at the failing input): the line consisting
of the object without a path field parses to a truthy value, and
applyPatch on it throws a TypeError (patch.path is undefined, so
patch.path.startsWith is a TypeError), instead of returning a snapshot. -/
theorem applyPatch_typeError_on_missing_path :
    parsePatch ("\x7b\"op\":\"add\",\"value\":\x7b\x7d\x7d".toList) =
      JsVal.obj [("op", JsVal.str "add"), ("value", JsVal.obj [])] ∧
    jsTruthy (JsVal.obj [("op", JsVal.str "add"), ("value", JsVal.obj [])]) = true ∧
    applyPatch emptyTree (JsVal.obj [("op", JsVal.str "add"), ("value", JsVal.obj [])]) =
      Except.error "TypeError" :=
  ⟨rfl, rfl, rfl⟩

/-- The string "/root" does not start with "/elements/". -/
theorem root_not_elements (p : String) (hpre : jsStartsWith p "/elements/" = true) :
    p ≠ "/root" := by
  intro e
  subst e
  exact absurd hpre (by decide)

/-- Claim C4: an operation whose path has the /elements/\x7bkey\x7d shape
with a non-empty key and op set or add stores the operation value as
the full element under that key: the new snapshot maps the key to
exactly the patch value (so nothing of a previously stored element
survives), keeps the root, and leaves every other key unchanged. -/
theorem applyPatch_elements_full_replace (t : UITree) (patch : JsVal) (p k : String)
    (hp : jsGet patch "path" = JsVal.str p)
    (hpre : jsStartsWith p "/elements/" = true)
    (hk : extractKey p = k) (hk0 : ¬(k = ""))
    (hop : jsGet patch "op" = JsVal.str "set" ∨ jsGet patch "op" = JsVal.str "add") :
    ∃ t2, applyPatch t patch = Except.ok t2 ∧
      t2.root = t.root ∧
      getAssoc t2.elements k = some (jsGet patch "value") ∧
      ∀ k2, k2 ≠ k → getAssoc t2.elements k2 = getAssoc t.elements k2 := by
  have hroot : jsStrEq (JsVal.str p) "/root" = false := by
    simp only [jsStrEq]
    exact beq_eq_false_iff_ne.mpr (root_not_elements p hpre)
  have hcond : ((!(k == "")) &&
      (jsStrEq (jsGet patch "op") "set" || jsStrEq (jsGet patch "op") "add")) = true := by
    rcases hop with h | h <;> rw [h] <;> simp [jsStrEq, hk0]
  refine ⟨{ root := t.root, elements := setAssoc t.elements k (jsGet patch "value") }, ?_, rfl, ?_, ?_⟩
  · simp only [applyPatch, hp, hroot, Bool.false_eq_true, if_false, hpre, if_true, hk, hcond]
  · exact getAssoc_setAssoc_self t.elements k (jsGet patch "value")
  · intro k2 hk2
    exact getAssoc_setAssoc_ne t.elements k k2 (jsGet patch "value") hk2

/-- Claim C5: an operation with a string path that is neither "/root"
nor an /elements/ path with a non-empty key, or an /elements/ path
whose op is neither set nor add, is ignored: applyPatch returns a
snapshot with the same root and the same elements as the input. -/
theorem applyPatch_ignores_unmatched (t : UITree) (patch : JsVal) (p : String)
    (hp : jsGet patch "path" = JsVal.str p)
    (hnr : p ≠ "/root")
    (hcase : jsStartsWith p "/elements/" = false ∨ extractKey p = "" ∨
      (jsGet patch "op" ≠ JsVal.str "set" ∧ jsGet patch "op" ≠ JsVal.str "add")) :
    ∃ t2, applyPatch t patch = Except.ok t2 ∧ t2.root = t.root ∧ t2.elements = t.elements := by
  have hroot : jsStrEq (JsVal.str p) "/root" = false := by
    simp only [jsStrEq]
    exact beq_eq_false_iff_ne.mpr hnr
  refine ⟨{ root := t.root, elements := t.elements }, ?_, rfl, rfl⟩
  by_cases hpre : jsStartsWith p "/elements/" = true
  · have hcond : ((!(extractKey p == "")) &&
        (jsStrEq (jsGet patch "op") "set" || jsStrEq (jsGet patch "op") "add")) = false := by
      rcases hcase with hc | hc | hc
      · rw [hpre] at hc
        exact absurd hc (by simp)
      · simp [hc]
      · have h1 : jsStrEq (jsGet patch "op") "set" = false := by
          cases hcs : jsStrEq (jsGet patch "op") "set"
          · rfl
          · exact absurd ((jsStrEq_true_iff _ _).mp hcs) hc.1
        have h2 : jsStrEq (jsGet patch "op") "add" = false := by
          cases hcs : jsStrEq (jsGet patch "op") "add"
          · rfl
          · exact absurd ((jsStrEq_true_iff _ _).mp hcs) hc.2
        simp [h1, h2]
    simp only [applyPatch, hp, hroot, Bool.false_eq_true, if_false, hpre, if_true, hcond]
  · have hpre2 : jsStartsWith p "/elements/" = false := by
      cases h : jsStartsWith p "/elements/"
      · rfl
      · exact absurd h hpre
    simp only [applyPatch, hp, hroot, Bool.false_eq_true, if_false, hpre2]

/-- Witness for C4: re-adding the element under the key form fully
replaces the previously stored element. -/
theorem applyPatch_elements_full_replace_instance :
    ∃ t2, applyPatch { root := JsVal.str "form", elements := [("form", JsVal.str "OLD")] }
        (JsVal.obj [("op", JsVal.str "add"), ("path", JsVal.str "/elements/form"),
          ("value", JsVal.str "NEW")]) = Except.ok t2 ∧
      t2.root = JsVal.str "form" ∧
      getAssoc t2.elements "form" = some (JsVal.str "NEW") ∧
      ∀ k2, k2 ≠ "form" → getAssoc t2.elements k2 =
        getAssoc [("form", JsVal.str "OLD")] k2 :=
  applyPatch_elements_full_replace _ _ "/elements/form" "form" rfl (by decide) rfl (by decide)
    (Or.inr rfl)

/-- Witness for C5: an /elements/ path with the unsupported op remove
leaves root and elements unchanged. -/
theorem applyPatch_ignores_unmatched_instance :
    ∃ t2, applyPatch { root := JsVal.str "r", elements := [("a", JsVal.str "A")] }
        (JsVal.obj [("op", JsVal.str "remove"), ("path", JsVal.str "/elements/a")]) =
      Except.ok t2 ∧ t2.root = JsVal.str "r" ∧ t2.elements = [("a", JsVal.str "A")] :=
  applyPatch_ignores_unmatched _ _ "/elements/a" rfl (by decide)
    (Or.inr (Or.inr ⟨fun h => absurd (JsVal.str.inj h) (by decide),
      fun h => absurd (JsVal.str.inj h) (by decide)⟩))

/-- Claim C9: forward references are tolerated. Setting root to form
and then adding the form element whose children list the absent key
name yields the expected snapshot, and the renderer-facing child
resolution drops the unresolved key without error. -/
theorem forward_reference_tolerated :
    applyPatch emptyTree
        (JsVal.obj [("op", JsVal.str "set"), ("path", JsVal.str "/root"),
          ("value", JsVal.str "form")]) =
      Except.ok (UITree.mk (JsVal.str "form") []) ∧
    applyPatch (UITree.mk (JsVal.str "form") [])
        (JsVal.obj [("op", JsVal.str "add"), ("path", JsVal.str "/elements/form"),
          ("value", JsVal.obj [("key", JsVal.str "form"), ("type", JsVal.str "Form"),
            ("props", JsVal.obj []), ("children", JsVal.arr [JsVal.str "name"])])]) =
      Except.ok (UITree.mk (JsVal.str "form")
        [("form", JsVal.obj [("key", JsVal.str "form"), ("type", JsVal.str "Form"),
          ("props", JsVal.obj []), ("children", JsVal.arr [JsVal.str "name"])])]) ∧
    jsGet (JsVal.obj [("key", JsVal.str "form"), ("type", JsVal.str "Form"),
        ("props", JsVal.obj []), ("children", JsVal.arr [JsVal.str "name"])]) "children" =
      JsVal.arr [JsVal.str "name"] ∧
    getAssoc [("form", JsVal.obj [("key", JsVal.str "form"), ("type", JsVal.str "Form"),
        ("props", JsVal.obj []), ("children", JsVal.arr [JsVal.str "name"])])] "name" =
      (none : Option JsVal) ∧
    resolveChildren
        (UITree.mk (JsVal.str "form")
          [("form", JsVal.obj [("key", JsVal.str "form"), ("type", JsVal.str "Form"),
            ("props", JsVal.obj []), ("children", JsVal.arr [JsVal.str "name"])])])
        (JsVal.obj [("key", JsVal.str "form"), ("type", JsVal.str "Form"),
          ("props", JsVal.obj []), ("children", JsVal.arr [JsVal.str "name"])]) =
      Except.ok [] :=
  ⟨rfl, rfl, rfl, rfl, rfl⟩

/-- Claim C6 (amended): parsePatch never throws, and it returns the
not-a-patch value null exactly when the trimmed line is empty, starts
with the comment marker, fails strict JSON parsing, or parses to the
JSON value null; and a line on which parsePatch returns null produces
no change at all in the line-processing step. -/
theorem parsePatch_not_a_patch_iff (line : List Char) :
    (parsePatch line = JsVal.null ↔
      (trimChars line).isEmpty = true ∨ isCommentStart (trimChars line) = true ∨
      jsonParse (trimChars line) = none ∨ jsonParse (trimChars line) = some JsVal.null) ∧
    (parsePatch line = JsVal.null → ∀ st : ProcState, processOne st line = st) := by
  constructor
  · cases h1 : (trimChars line).isEmpty with
    | true => simp [parsePatch, h1]
    | false =>
      cases h2 : isCommentStart (trimChars line) with
      | true => simp [parsePatch, h1, h2]
      | false =>
        cases hj : jsonParse (trimChars line) with
        | none => simp [parsePatch, h1, h2, hj]
        | some v => simp [parsePatch, h1, h2, hj]
  · intro h st
    cases hst : st.err with
    | some e => simp [processOne, hst]
    | none => simp [processOne, hst, h, jsTruthy]

/-- Counterexample to C6 as stated: the line null is non-empty after
trimming, is not a comment, and parses successfully as strict JSON,
yet parsePatch returns the not-a-patch value null, so the stated
exactly-when equivalence fails. -/
theorem parsePatch_null_line_counterexample :
    ¬ (parsePatch "null".toList = JsVal.null ↔
      (trimChars "null".toList).isEmpty = true ∨
      isCommentStart (trimChars "null".toList) = true ∨
      jsonParse (trimChars "null".toList) = none) := by
  intro h
  have h2 := h.mp rfl
  rcases h2 with hc | hc | hc
  · exact absurd hc (by decide)
  · exact absurd hc (by decide)
  · rw [show jsonParse (trimChars "null".toList) = some JsVal.null from rfl] at hc
    exact Option.noConfusion hc

/-- Witness for C6 at a comment line: the processing step is the
identity on the state. -/
theorem parsePatch_not_a_patch_iff_instance :
    processOne (ProcState.mk emptyTree [] none) ("// note".toList) =
      ProcState.mk emptyTree [] none :=
  (parsePatch_not_a_patch_iff ("// note".toList)).2 rfl (ProcState.mk emptyTree [] none)

/-- Claim C3 (amended): a start request arriving while a session is
loading, or with a blank prompt, is ignored entirely (no cancellation
fires, no session starts); when no session is loading and the prompt
is non-blank, the start request aborts the previous controller before
installing a fresh one and resets the published lines and tree. -/
theorem handleSubmit_start_policy (s : ClientState) :
    (((trimChars s.userPrompt.toList).isEmpty || s.isLoading) = true →
      handleSubmitStart s = (s, false)) ∧
    (((trimChars s.userPrompt.toList).isEmpty || s.isLoading) = false →
      (handleSubmitStart s).2 = true ∧
      (handleSubmitStart s).1.isLoading = true ∧
      (handleSubmitStart s).1.streamLines = [] ∧
      (handleSubmitStart s).1.tree = some emptyTree ∧
      (handleSubmitStart s).1.currentCtrl = some s.nextCtrl ∧
      (∀ c, s.currentCtrl = some c → c ∈ (handleSubmitStart s).1.aborted)) := by
  constructor
  · intro h
    rcases Bool.or_eq_true_iff.mp h with h1 | h1
    · have h1d : trimChars s.userPrompt.data = [] := List.isEmpty_iff.mp h1
      simp [handleSubmitStart, h1d]
    · simp [handleSubmitStart, h1]
  · intro h
    have h12 := Bool.or_eq_false_iff.mp h
    have h1 : ¬ trimChars s.userPrompt.toList = [] := by
      intro e
      rw [e] at h12
      simp at h12
    have h2 : ¬ s.isLoading = true := by
      rw [h12.2]
      simp
    have hnc : ¬(trimChars s.userPrompt.data = [] ∨ s.isLoading = true) := by
      rintro (e | e)
      · exact h1 e
      · exact h2 e
    cases hc : s.currentCtrl with
    | none => simp [handleSubmitStart, abortCurrent, hc, hnc]
    | some c0 => simp [handleSubmitStart, abortCurrent, hc, hnc]

/-- Counterexample to C3 as stated: a start request with a non-blank
prompt arriving while a session is Active (isLoading) leaves the state
unchanged and reports that no session started: the previous controller
is not aborted and no new session replaces it, so the request is
dropped rather than superseding the active session. -/
theorem handleSubmit_drops_start_while_active :
    handleSubmitStart (ClientState.mk true 2 (some 1) [] [] (some emptyTree) "hi") =
      (ClientState.mk true 2 (some 1) [] [] (some emptyTree) "hi", false) ∧
    (handleSubmitStart (ClientState.mk true 2 (some 1) [] [] (some emptyTree) "hi")).1.aborted =
      [] :=
  ⟨rfl, rfl⟩

/-- Witness for C3 at concrete states: a loading state ignores the
start request; a non-loading state starts a session and aborts the
previous controller first. -/
theorem handleSubmit_start_policy_instance :
    handleSubmitStart (ClientState.mk true 2 (some 1) [] [] none "hi") =
      (ClientState.mk true 2 (some 1) [] [] none "hi", false) ∧
    (handleSubmitStart (ClientState.mk false 2 (some 1) [] [] none "hi")).2 = true ∧
    1 ∈ (handleSubmitStart (ClientState.mk false 2 (some 1) [] [] none "hi")).1.aborted :=
  ⟨(handleSubmit_start_policy (ClientState.mk true 2 (some 1) [] [] none "hi")).1 (by decide),
   ((handleSubmit_start_policy (ClientState.mk false 2 (some 1) [] [] none "hi")).2 (by decide)).1,
   ((handleSubmit_start_policy
      (ClientState.mk false 2 (some 1) [] [] none "hi")).2 (by decide)).2.2.2.2.2 1 rfl⟩

/-- Heap read after write at the same address. -/
theorem lookupH_updH_self (h : EHeap) (a : Nat) (m : List (String × Nat)) :
    lookupH (updH h a m) a = m := by
  unfold lookupH updH
  rw [getAssoc_setAssoc_self]
  rfl

/-- Heap read after write at a different address. -/
theorem lookupH_updH_ne (h : EHeap) (a a2 : Nat) (m : List (String × Nat)) (hne : a2 ≠ a) :
    lookupH (updH h a m) a2 = lookupH h a2 := by
  unfold lookupH updH
  rw [getAssoc_setAssoc_ne _ _ _ _ hne]

/-- Claim C7: copy-on-write. For every snapshot, heap and operation
with a string path, applyPatchRef succeeds with a snapshot record at
the fresh address and a fresh elements wrapper; every pre-existing
heap object, in particular the input snapshot and its elements
wrapper, is untouched; and every entry of the new wrapper that differs
from the input wrapper is the single newly written reference, so all
entries not modified by the operation stay shared by reference. -/
theorem applyPatchRef_copy_on_write (h : EHeap) (t : RefTree) (patch : JsVal)
    (vref fa fe : Nat) (p : String)
    (hp : jsGet patch "path" = JsVal.str p)
    (hfa : fa ≠ t.addr) (hfe : fe ≠ t.elemsRef) :
    ∃ h2 t2, applyPatchRef h t patch vref fa fe = Except.ok (h2, t2) ∧
      t2.addr = fa ∧ t2.addr ≠ t.addr ∧ t2.elemsRef = fe ∧ t2.elemsRef ≠ t.elemsRef ∧
      lookupH h2 t.elemsRef = lookupH h t.elemsRef ∧
      (∀ a, a ≠ fe → lookupH h2 a = lookupH h a) ∧
      (∀ k, getAssoc (lookupH h2 fe) k ≠ getAssoc (lookupH h t.elemsRef) k →
        getAssoc (lookupH h2 fe) k = some vref) := by
  have hself : lookupH (updH h fe (lookupH h t.elemsRef)) fe = lookupH h t.elemsRef :=
    lookupH_updH_self h fe _
  have hframe : ∀ a, a ≠ fe → lookupH (updH h fe (lookupH h t.elemsRef)) a = lookupH h a :=
    fun a ha => lookupH_updH_ne h fe a _ ha
  by_cases hr : jsStrEq (JsVal.str p) "/root" = true
  · refine ⟨updH h fe (lookupH h t.elemsRef), RefTree.mk fa (jsGet patch "value") fe,
      ?_, rfl, hfa, rfl, hfe, ?_, hframe, ?_⟩
    · simp only [applyPatchRef, hp, hr, if_true]
    · exact hframe t.elemsRef (Ne.symm hfe)
    · intro k hk
      rw [hself] at hk
      exact absurd rfl hk
  · have hr2 : jsStrEq (JsVal.str p) "/root" = false := by
      cases hb : jsStrEq (JsVal.str p) "/root"
      · rfl
      · exact absurd hb hr
    by_cases hpre : jsStartsWith p "/elements/" = true
    · by_cases hcond : ((!(extractKey p == "")) &&
          (jsStrEq (jsGet patch "op") "set" || jsStrEq (jsGet patch "op") "add")) = true
      · refine ⟨updH (updH h fe (lookupH h t.elemsRef)) fe
            (setAssoc (lookupH (updH h fe (lookupH h t.elemsRef)) fe) (extractKey p) vref),
          RefTree.mk fa t.root fe, ?_, rfl, hfa, rfl, hfe, ?_, ?_, ?_⟩
        · simp only [applyPatchRef, hp, hr2, Bool.false_eq_true, if_false, hpre, if_true, hcond]
        · rw [lookupH_updH_ne _ _ _ _ (Ne.symm hfe), hframe t.elemsRef (Ne.symm hfe)]
        · intro a ha
          rw [lookupH_updH_ne _ _ _ _ ha, hframe a ha]
        · intro k hk
          rw [lookupH_updH_self, hself] at hk ⊢
          by_cases hkk : k = extractKey p
          · subst hkk
            exact getAssoc_setAssoc_self _ _ _
          · rw [getAssoc_setAssoc_ne _ _ _ _ hkk] at hk
            exact absurd rfl hk
      · have hcond2 : ((!(extractKey p == "")) &&
            (jsStrEq (jsGet patch "op") "set" || jsStrEq (jsGet patch "op") "add")) = false := by
          cases hb : ((!(extractKey p == "")) &&
              (jsStrEq (jsGet patch "op") "set" || jsStrEq (jsGet patch "op") "add"))
          · rfl
          · exact absurd hb hcond
        refine ⟨updH h fe (lookupH h t.elemsRef), RefTree.mk fa t.root fe,
          ?_, rfl, hfa, rfl, hfe, ?_, hframe, ?_⟩
        · simp only [applyPatchRef, hp, hr2, Bool.false_eq_true, if_false, hpre, if_true,
            hcond2]
        · exact hframe t.elemsRef (Ne.symm hfe)
        · intro k hk
          rw [hself] at hk
          exact absurd rfl hk
    · have hpre2 : jsStartsWith p "/elements/" = false := by
        cases hb : jsStartsWith p "/elements/"
        · rfl
        · exact absurd hb hpre
      refine ⟨updH h fe (lookupH h t.elemsRef), RefTree.mk fa t.root fe,
        ?_, rfl, hfa, rfl, hfe, ?_, hframe, ?_⟩
      · simp only [applyPatchRef, hp, hr2, Bool.false_eq_true, if_false, hpre2]
      · exact hframe t.elemsRef (Ne.symm hfe)
      · intro k hk
        rw [hself] at hk
        exact absurd rfl hk

/-- Witness for C7 at a concrete heap, snapshot and set operation. -/
theorem applyPatchRef_copy_on_write_instance :
    ∃ h2 t2, applyPatchRef [] (RefTree.mk 0 (JsVal.str "") 1)
        (JsVal.obj [("op", JsVal.str "set"), ("path", JsVal.str "/elements/a"),
          ("value", JsVal.obj [])]) 9 2 3 = Except.ok (h2, t2) ∧
      t2.addr = 2 ∧ t2.addr ≠ 0 ∧ t2.elemsRef = 3 ∧ t2.elemsRef ≠ 1 ∧
      lookupH h2 1 = lookupH [] 1 ∧
      (∀ a, a ≠ 3 → lookupH h2 a = lookupH [] a) ∧
      (∀ k, getAssoc (lookupH h2 3) k ≠ getAssoc (lookupH [] 1) k →
        getAssoc (lookupH h2 3) k = some 9) :=
  applyPatchRef_copy_on_write [] (RefTree.mk 0 (JsVal.str "") 1)
    (JsVal.obj [("op", JsVal.str "set"), ("path", JsVal.str "/elements/a"),
      ("value", JsVal.obj [])]) 9 2 3 "/elements/a" rfl (by decide) (by decide)

/-- The session fold decomposes into the framing fold and the line
processing of the emitted lines. -/
theorem sess_foldl (cs : List (List Char)) :
    ∀ buf st, cs.foldl sessStep (buf, st) =
      ((cs.foldl frameStepF ([], buf)).2,
        processLines st (cs.foldl frameStepF ([], buf)).1) := by
  induction cs with
  | nil =>
    intro buf st
    simp [processLines]
  | cons c cs ih =>
    intro buf st
    rw [List.foldl_cons, List.foldl_cons]
    show cs.foldl sessStep ((frameStep buf c).2, processLines st (frameStep buf c).1) = _
    rw [ih (frameStep buf c).2 (processLines st (frameStep buf c).1)]
    have h1 : frameStepF ([], buf) c = ((frameStep buf c).1, (frameStep buf c).2) := by
      simp [frameStepF]
    rw [h1, frame_foldl_shift cs (frameStep buf c).1 (frameStep buf c).2]
    simp [processLines, List.foldl_append]

/-- Claim C8: cancellation is not an error. Aborting the in-flight
request after any number of chunks is not surfaced to observers (the
AbortError name is exempt from the console.error of the catch block,
while every other error name is surfaced, so cancellation stays
distinguishable from failure), and the tree and raw-line log already
published remain exactly the processing state of the consumed prefix:
no rollback, and loading is cleared. -/
theorem abort_not_surfaced (chunks : List (List Char)) (n : Nat)
    (hok : (processLines (ProcState.mk emptyTree [] none)
      (frameChunks (chunks.take n)).1).err = none) :
    errSurfaced "AbortError" = false ∧
    (∀ e, e ≠ "AbortError" → errSurfaced e = true) ∧
    (runSession chunks (some n)).errorSurfaced = false ∧
    (runSession chunks (some n)).tree =
      (processLines (ProcState.mk emptyTree [] none) (frameChunks (chunks.take n)).1).tree ∧
    (runSession chunks (some n)).streamLines =
      (processLines (ProcState.mk emptyTree [] none) (frameChunks (chunks.take n)).1).log ∧
    (runSession chunks (some n)).isLoading = false := by
  constructor
  · rfl
  constructor
  · intro e he
    simp [errSurfaced, he]
  have hs : (chunks.take n).foldl sessStep ([], ProcState.mk emptyTree [] none) =
      ((frameChunks (chunks.take n)).2,
        processLines (ProcState.mk emptyTree [] none) (frameChunks (chunks.take n)).1) :=
    sess_foldl (chunks.take n) [] (ProcState.mk emptyTree [] none)
  simp only [runSession, hs, hok]
  simp [errSurfaced]

/-- Witness for C8 at a concrete two-line stream aborted after its
first chunk: nothing surfaced, a non-abort name would surface, and the
published log equals the prefix processing state. -/
theorem abort_not_surfaced_instance :
    (runSession [['a', '\n', 'b']] (some 1)).errorSurfaced = false ∧
    errSurfaced "TypeError" = true ∧
    (runSession [['a', '\n', 'b']] (some 1)).streamLines =
      (processLines (ProcState.mk emptyTree [] none)
        (frameChunks ([['a', '\n', 'b']].take 1)).1).log ∧
    (runSession [['a', '\n', 'b']] (some 1)).isLoading = false :=
  ⟨(abort_not_surfaced [['a', '\n', 'b']] 1 rfl).2.2.1,
   (abort_not_surfaced [['a', '\n', 'b']] 1 rfl).2.1 "TypeError" (by decide),
   (abort_not_surfaced [['a', '\n', 'b']] 1 rfl).2.2.2.2.1,
   (abort_not_surfaced [['a', '\n', 'b']] 1 rfl).2.2.2.2.2⟩

/-- A slice to n code points has length at most n. -/
theorem jsSlice_length_le (s : String) (n : Nat) : (jsSlice s n).length ≤ n := by
  unfold jsSlice
  have h : (String.mk (s.toList.take n)).length = (s.toList.take n).length := rfl
  rw [h]
  exact List.length_take_le n _

/-- Claim C10: every prompt string the POST handler hands to the
generator has length at most MAX_PROMPT_LENGTH = 140; a missing or
non-string prompt field is coerced to a string before the cut. -/
theorem post_prompt_capped (body : JsVal) (s : String)
    (h : sanitizePrompt body = Except.ok s) : s.length ≤ MAX_PROMPT_LENGTH := by
  cases body with
  | null => simp [sanitizePrompt] at h
  | undef => simp [sanitizePrompt] at h
  | bool b =>
    simp only [sanitizePrompt, Except.ok.injEq] at h
    rw [← h]
    exact jsSlice_length_le _ _
  | num l =>
    simp only [sanitizePrompt, Except.ok.injEq] at h
    rw [← h]
    exact jsSlice_length_le _ _
  | str t =>
    simp only [sanitizePrompt, Except.ok.injEq] at h
    rw [← h]
    exact jsSlice_length_le _ _
  | arr xs =>
    simp only [sanitizePrompt, Except.ok.injEq] at h
    rw [← h]
    exact jsSlice_length_le _ _
  | obj fs =>
    simp only [sanitizePrompt, Except.ok.injEq] at h
    rw [← h]
    exact jsSlice_length_le _ _

/-- Witness for C10 at a concrete body with a short string prompt. -/
theorem post_prompt_capped_instance :
    sanitizePrompt (JsVal.obj [("prompt", JsVal.str "hello")]) = Except.ok "hello" ∧
    "hello".length ≤ MAX_PROMPT_LENGTH :=
  ⟨rfl, post_prompt_capped (JsVal.obj [("prompt", JsVal.str "hello")]) "hello" rfl⟩
